import Mathlib

/-!
Verification development for `embeddings_faiss.py`, a one-shot batch tool that
builds and queries a flat L2 vector index (via the faiss library) with a
companion JSON metadata file.

The script is embedded shallowly:

* vectors are modelled as `List ℚ` (the script uses float32; all claims under
  study are structural — lengths, ordering, membership — and the rational
  model computes the same squared-Euclidean comparisons exactly);
* the faiss library calls (`IndexFlatL2`, `index.search`, `write_index`,
  `read_index`) are modelled by their documented semantics: exact brute-force
  k-NN by squared L2 distance, with result rows padded with label `-1` and a
  huge sentinel distance when `k` exceeds the number of stored vectors, and a
  serialization that records the dimension, the vector count and the flat
  array of values;
* Python-level behaviours that the script relies on are modelled explicitly:
  `meta[i]` uses Python list indexing (negative indices wrap from the end,
  out-of-bounds raises `IndexError`), missing JSON keys raise `KeyError`,
  `np.array` over ragged rows raises `ValueError`, `embeddings.shape[1]` on an
  empty batch raises `IndexError`, and the faiss Python wrapper asserts
  `d == self.d` and `k > 0` before searching;
* the two persisted artifacts (`faiss.index` at line 28, `meta.json` at
  line 35) are a two-field file-system state; each write replaces the file at
  its final path, in program order, exactly as the script does.

Failures are surfaced as an error enumeration whose constructors label the
distinct failure sites of the script with the error kinds used by the design
document; each constructor's comment records the concrete Python exception
and source line it stands for.
-/

namespace EmbFaiss

instance {ε α : Type} [DecidableEq ε] [DecidableEq α] : DecidableEq (Except ε α) :=
  fun a b =>
    match a, b with
    | .ok x, .ok y =>
      if h : x = y then .isTrue (by rw [h]) else .isFalse (by intro hc; cases hc; exact h rfl)
    | .error x, .error y =>
      if h : x = y then .isTrue (by rw [h]) else .isFalse (by intro hc; cases hc; exact h rfl)
    | .ok _, .error _ => .isFalse (by intro hc; cases hc)
    | .error _, .ok _ => .isFalse (by intro hc; cases hc)

/-- The distinct failure sites of the script, labelled with the design
document's error-kind names. -/
inductive Err where
  /-- A `KeyError`: a required JSON field is absent (`c["embedding"]` at
  line 22, `c["text"]`/`c["metadata"]`/`c["context"]` at lines 32,
  `query_json["embedding"]`/`["k"]`/`["context"]` at lines 41–43). -/
  | keyError
  /-- `np.array` raising `ValueError` on ragged embedding rows (line 22), or
  the faiss wrapper's `assert d == self.d` failing on a query vector of the
  wrong length (line 46). -/
  | dimensionMismatch
  /-- `embeddings.shape[1]` raising `IndexError` because the batch is empty,
  so the array has shape `(0,)` (line 24). -/
  | emptyBatch
  /-- Python list indexing `meta[i]` raising `IndexError` (line 50). -/
  | outOfRange
  /-- `faiss.read_index` (line 45) or `open(meta_file)` (line 48) failing
  because the persisted file is absent. -/
  | indexNotFound
  /-- The faiss wrapper's `assert k > 0` failing (line 46). -/
  | invalidK
deriving DecidableEq, Repr

/-- One entry of `meta.json`: `{"text": ..., "metadata": ..., "context": ...}`
(lines 31–34). `α` is the type of the opaque JSON values carried in the
`metadata` and `context` fields; the script never inspects them. -/
structure Record (α : Type) where
  text : String
  metadata : α
  context : α
deriving DecidableEq, Repr

/-- One element of the input payload's `chunks` array (line 21). Each field is
optional because the payload is an arbitrary JSON document: accessing an
absent key raises `KeyError`. -/
structure Chunk (α : Type) where
  embedding : Option (List ℚ)
  text : Option String
  metadata : Option α
  context : Option α
deriving DecidableEq, Repr

/-- The in-memory state of a faiss `IndexFlatL2`: its dimension `d` and the
stored vectors in insertion order (lines 25–26). -/
structure VectorStore where
  dim : Nat
  vecs : List (List ℚ)
deriving DecidableEq, Repr

/-- The persisted form of the index, as written by `faiss.write_index`
(line 28): the dimension, the vector count (`ntotal`) and the flat array of
stored values. -/
structure SerializedIndex where
  dim : Nat
  ntotal : Nat
  flat : List ℚ
deriving DecidableEq, Repr

/-- The two files of an index directory: `faiss.index` (line 14) and
`meta.json` (line 15). `none` means the file does not exist. -/
structure FS (α : Type) where
  indexFile : Option SerializedIndex
  metaFile : Option (List (Record α))
deriving DecidableEq, Repr

/-- Evaluate `f` on every element left to right, propagating the first
exception — the semantics of the list comprehensions at lines 22, 31–34
and 50. -/
def mapOrErr (f : β → Except Err γ) : List β → Except Err (List γ)
  | [] => .ok []
  | b :: bs =>
    match f b with
    | .error e => .error e
    | .ok c =>
      match mapOrErr f bs with
      | .error e => .error e
      | .ok cs => .ok (c :: cs)

/-- `[c["embedding"] for c in chunks]` (line 22): extract every embedding,
raising `KeyError` on the first chunk that lacks one. -/
def extractEmbeddings (chunks : List (Chunk α)) : Except Err (List (List ℚ)) :=
  mapOrErr (fun c =>
    match c.embedding with
    | some e => .ok e
    | none => .error .keyError) chunks

/-- Whether `np.array` over these rows produces a 2-D array: true exactly when
all rows have the same length (line 22 raises `ValueError` otherwise). -/
def allSameLen : List (List ℚ) → Bool
  | [] => true
  | e :: rest => rest.all (fun v => v.length = e.length)

/-- One entry of the `meta` list (lines 31–34): read `text`, `metadata` and
`context` from the chunk, raising `KeyError` on the first absent key. -/
def buildRecord (c : Chunk α) : Except Err (Record α) :=
  match c.text with
  | none => .error .keyError
  | some t =>
    match c.metadata with
    | none => .error .keyError
    | some m =>
      match c.context with
      | none => .error .keyError
      | some x => .ok ⟨t, m, x⟩

/-- The `meta` list comprehension at lines 31–34. -/
def buildMeta (chunks : List (Chunk α)) : Except Err (List (Record α)) :=
  mapOrErr buildRecord chunks

/-- `faiss.write_index` (line 28): serialize the dimension, the count and the
flat value array. -/
def saveIndex (s : VectorStore) : SerializedIndex :=
  ⟨s.dim, s.vecs.length, s.vecs.flatten⟩

/-- Split a flat array back into `n` rows of `dim` values each. -/
def takeRows (dim : Nat) : Nat → List ℚ → List (List ℚ)
  | 0, _ => []
  | n + 1, flat => flat.take dim :: takeRows dim n (flat.drop dim)

/-- `faiss.read_index` (line 45): rebuild the index from its dimension, count
and flat value array. -/
def loadIndex (si : SerializedIndex) : VectorStore :=
  ⟨si.dim, takeRows si.dim si.ntotal si.flat⟩

/-- Squared Euclidean distance, the metric of `IndexFlatL2`. -/
def sqDist (q v : List ℚ) : ℚ :=
  (List.zipWith (fun a b => (a - b) ^ 2) q v).sum

/-- Ranking of candidate `(position, distance)` pairs: strictly smaller
distance first, ties by ascending position. -/
def rankLe (a b : Int × ℚ) : Prop :=
  a.2 < b.2 ∨ (a.2 = b.2 ∧ a.1 ≤ b.1)

instance : DecidableRel rankLe := by
  intro a b
  unfold rankLe
  infer_instance

instance : IsTotal (Int × ℚ) rankLe := by
  constructor
  intro a b
  rcases lt_trichotomy a.2 b.2 with h | h | h
  · exact Or.inl (Or.inl h)
  · rcases le_total a.1 b.1 with h1 | h1
    · exact Or.inl (Or.inr ⟨h, h1⟩)
    · exact Or.inr (Or.inr ⟨h.symm, h1⟩)
  · exact Or.inr (Or.inl h)

instance : IsTrans (Int × ℚ) rankLe := by
  constructor
  intro a b c hab hbc
  rcases hab with h1 | ⟨h1, h1p⟩
  · rcases hbc with h2 | ⟨h2, _⟩
    · exact Or.inl (h1.trans h2)
    · exact Or.inl (h2 ▸ h1)
  · rcases hbc with h2 | ⟨h2, h2p⟩
    · exact Or.inl (h1 ▸ h2)
    · exact Or.inr ⟨h1.trans h2, h1p.trans h2p⟩

/-- The sentinel distance faiss leaves in result slots that could not be
filled (`k > ntotal`): modelled as `FLT_MAX`, larger than any real squared
distance the script computes. -/
def fltMax : ℚ := (2 - 1 / 2 ^ 23) * 2 ^ 127

/-- The brute-force scan of `IndexFlatL2`: one `(position, distance)`
candidate per stored vector, in storage order. -/
def candPairs (store : VectorStore) (q : List ℚ) : List (Int × ℚ) :=
  (List.range store.vecs.length).map
    (fun i => (Int.ofNat i, sqDist q (store.vecs.getD i [])))

/-- `index.search(q_emb, k)` on an `IndexFlatL2` (line 46), one query row:
exact brute-force scan, the `k` nearest stored vectors by squared L2
distance in ascending order; when `k` exceeds the number of stored vectors
the remaining result slots are padded with label `-1` and the sentinel
distance. -/
def searchModel (store : VectorStore) (q : List ℚ) (k : Nat) : List (Int × ℚ) :=
  (List.insertionSort rankLe (candPairs store q)).take k ++
    List.replicate (k - store.vecs.length) (-1, fltMax)

/-- Python list indexing `meta[i]` (line 50): a negative index wraps by the
list length; an index still out of bounds raises `IndexError`. -/
def pyGet (meta : List (Record α)) (p : Int) : Except Err (Record α) :=
  let i : Int := if p < 0 then (meta.length : Int) + p else p
  if i < 0 then .error .outOfRange
  else
    match meta[i.toNat]? with
    | some r => .ok r
    | none => .error .outOfRange

/-- The `index` branch (lines 17–37): extract the embeddings, build the flat
index, write `faiss.index`, build the metadata list, write `meta.json`, and
report the chunk count. Returns the file-system state after the operation
together with the outcome. -/
def indexRun (chunks : List (Chunk α)) (fs : FS α) : FS α × Except Err Nat :=
  match extractEmbeddings chunks with
  | .error e => (fs, .error e)
  | .ok embs =>
    if allSameLen embs then
      match embs with
      | [] => (fs, .error .emptyBatch)
      | e :: rest =>
        let store : VectorStore := ⟨e.length, e :: rest⟩
        let fs1 : FS α := { fs with indexFile := some (saveIndex store) }
        match buildMeta chunks with
        | .error err => (fs1, .error err)
        | .ok meta => ({ fs1 with metaFile := some meta }, .ok chunks.length)
    else (fs, .error .dimensionMismatch)

/-- The `query` branch (lines 39–51): read `embedding`, `k` and `context`
from the query document, load the index, check the dimension and `k`, search,
load the metadata, and project every result label through `meta[i]`. The
result is the list of records the script prints. -/
def queryRun (q : Option (List ℚ)) (k : Option Int) (context : Option α)
    (fs : FS α) : Except Err (List (Record α)) :=
  match q with
  | none => .error .keyError
  | some qv =>
    match k with
    | none => .error .keyError
    | some kv =>
      match context with
      | none => .error .keyError
      | some _ =>
        match fs.indexFile with
        | none => .error .indexNotFound
        | some si =>
          let store := loadIndex si
          if qv.length = store.dim then
            if kv ≥ 1 then
              let res := searchModel store qv kv.toNat
              match fs.metaFile with
              | none => .error .indexNotFound
              | some meta => mapOrErr (fun pr => pyGet meta pr.1) res
            else .error .invalidK
          else .error .dimensionMismatch

/-! Concrete scenario data used by witnesses and counterexamples. -/

/-- The three-chunk payload of the end-to-end scenario: embeddings `[1,0]`,
`[0,1]`, `[5,5]` with texts `"a"`, `"b"`, `"c"`. -/
def chunks3 : List (Chunk String) :=
  [⟨some [1, 0], some "a", some "ma", some "xa"⟩,
   ⟨some [0, 1], some "b", some "mb", some "xb"⟩,
   ⟨some [5, 5], some "c", some "mc", some "xc"⟩]

/-- An empty index directory. -/
def fs0 : FS String := ⟨none, none⟩

/-- The index directory after indexing `chunks3`. -/
def fs3 : FS String := (indexRun chunks3 fs0).1

/-- The query embedding `[0.9, 0.1]` of the end-to-end scenario. -/
def qvec3 : List ℚ := [mkRat 9 10, mkRat 1 10]

/-- A single-chunk payload (one stored vector). -/
def chunks1 : List (Chunk String) := [⟨some [0], some "a", some "m", some "x"⟩]

/-- The index directory after indexing `chunks1`. -/
def fsOne : FS String := (indexRun chunks1 fs0).1

/-- A directory already holding a persisted store (used to observe what an
index operation leaves behind when it fails midway). -/
def fsOld : FS String := ⟨some ⟨1, 1, [7]⟩, some [⟨"old", "om", "oc"⟩]⟩

/-! Helper lemmas. -/

theorem takeRows_flatten (dim : Nat) (vs : List (List ℚ))
    (h : ∀ v ∈ vs, v.length = dim) : takeRows dim vs.length vs.flatten = vs := by
  induction vs with
  | nil => rfl
  | cons v vs ih =>
    have hv : v.length = dim := h v (List.mem_cons_self v vs)
    simp only [List.length_cons, List.flatten_cons, takeRows]
    have h1 : (v ++ vs.flatten).take dim = v := by
      rw [← hv]; exact List.take_left v vs.flatten
    have h2 : (v ++ vs.flatten).drop dim = vs.flatten := by
      rw [← hv]; exact List.drop_left v vs.flatten
    rw [h1, h2, ih (fun w hw => h w (List.mem_cons_of_mem v hw))]

theorem loadIndex_saveIndex (s : VectorStore)
    (h : ∀ v ∈ s.vecs, v.length = s.dim) : loadIndex (saveIndex s) = s := by
  cases s with
  | mk dim vecs =>
    simp only [loadIndex, saveIndex]
    rw [takeRows_flatten dim vecs h]

theorem takeRows_length (dim n : Nat) (flat : List ℚ) :
    (takeRows dim n flat).length = n := by
  induction n generalizing flat with
  | zero => rfl
  | succ n ih => simp [takeRows, ih]

theorem rankLe_snd_le {a b : Int × ℚ} (h : rankLe a b) : a.2 ≤ b.2 := by
  rcases h with h | ⟨h, _⟩
  · exact le_of_lt h
  · exact le_of_eq h

theorem candPairs_length (store : VectorStore) (q : List ℚ) :
    (candPairs store q).length = store.vecs.length := by
  simp [candPairs]

theorem candPairs_map_fst (store : VectorStore) (q : List ℚ) :
    (candPairs store q).map Prod.fst =
      (List.range store.vecs.length).map Int.ofNat := by
  simp [candPairs, List.map_map]

theorem mem_candPairs {store : VectorStore} {q : List ℚ} {p : Int × ℚ}
    (hp : p ∈ candPairs store q) :
    ∃ i : Nat, i < store.vecs.length ∧
      p = (Int.ofNat i, sqDist q (store.vecs.getD i [])) := by
  simp only [candPairs, List.mem_map, List.mem_range] at hp
  obtain ⟨i, hi, he⟩ := hp
  exact ⟨i, hi, he.symm⟩

theorem mapOrErr_ok_of_forall (f : β → Except Err γ) (g : β → γ) :
    ∀ l : List β, (∀ b ∈ l, f b = .ok (g b)) → mapOrErr f l = .ok (l.map g)
  | [], _ => rfl
  | b :: bs, h => by
    simp only [mapOrErr, h b (List.mem_cons_self b bs)]
    rw [mapOrErr_ok_of_forall f g bs (fun x hx => h x (List.mem_cons_of_mem b hx))]
    simp

theorem mapOrErr_replicate (f : β → Except Err γ) (m : Nat) (x : β) (c : γ)
    (h : f x = .ok c) :
    mapOrErr f (List.replicate m x) = .ok (List.replicate m c) := by
  have hh := mapOrErr_ok_of_forall f (fun _ => c) (List.replicate m x)
    (fun b hb => by rw [List.eq_of_mem_replicate hb]; exact h)
  simpa [List.map_replicate] using hh

theorem mapOrErr_append_ok (f : β → Except Err γ) {l1 l2 : List β} {cs ds : List γ}
    (h1 : mapOrErr f l1 = .ok cs) (h2 : mapOrErr f l2 = .ok ds) :
    mapOrErr f (l1 ++ l2) = .ok (cs ++ ds) := by
  induction l1 generalizing cs with
  | nil =>
    simp only [mapOrErr] at h1
    cases h1
    simpa using h2
  | cons b bs ih =>
    simp only [mapOrErr, List.cons_append] at h1 ⊢
    cases hfb : f b with
    | error e => simp only [hfb] at h1; cases h1
    | ok c =>
      simp only [hfb] at h1 ⊢
      cases hbs : mapOrErr f bs with
      | error e => simp only [hbs] at h1; cases h1
      | ok cs2 =>
        simp only [hbs] at h1
        cases h1
        have hap : mapOrErr f (bs.append l2) = Except.ok (cs2 ++ ds) := ih hbs
        rw [hap]
        simp

theorem pyGet_ofNat {α : Type} (meta : List (Record α)) (i : Nat)
    (h : i < meta.length) (r0 : Record α) :
    pyGet meta (Int.ofNat i) = .ok (meta.getD i r0) := by
  have h0 : ¬ (Int.ofNat i < 0) := by simp
  simp only [pyGet, if_neg h0]
  have ht : (Int.ofNat i).toNat = i := rfl
  rw [ht, List.getElem?_eq_getElem h, List.getD_eq_getElem meta r0 h]

theorem pyGet_neg_one {α : Type} (meta : List (Record α)) (hne : meta ≠ []) :
    pyGet meta (-1) = .ok (meta.getLast hne) := by
  have hlen : 1 ≤ meta.length := List.length_pos.mpr hne
  have hneg : (-1 : Int) < 0 := by omega
  simp only [pyGet, if_pos hneg]
  rw [if_neg (by omega)]
  have ht : ((meta.length : Int) + -1).toNat = meta.length - 1 := by omega
  rw [ht]
  have hl : meta.length - 1 < meta.length := by omega
  rw [List.getElem?_eq_getElem hl, List.getLast_eq_getElem]

theorem allSameLen_forall {e : List ℚ} {rest : List (List ℚ)}
    (h : allSameLen (e :: rest) = true) : ∀ v ∈ e :: rest, v.length = e.length := by
  intro v hv
  rcases List.mem_cons.mp hv with h1 | h1
  · rw [h1]
  · have h2 := List.all_eq_true.mp (show rest.all (fun v => v.length = e.length) = true from h) v h1
    exact of_decide_eq_true h2

theorem allSameLen_false_of_diff {embs : List (List ℚ)}
    (h : ∃ v ∈ embs, ∃ w ∈ embs, v.length ≠ w.length) : allSameLen embs = false := by
  obtain ⟨v, hv, w, hw, hne⟩ := h
  cases embs with
  | nil => cases hv
  | cons e rest =>
    cases hal : allSameLen (e :: rest) with
    | false => rfl
    | true =>
      have hall := allSameLen_forall hal
      exact absurd (by rw [hall v hv, hall w hw]) hne

theorem mapOrErr_ok_pointwise (f : β → Except Err γ) :
    ∀ {l : List β} {l2 : List γ}, mapOrErr f l = .ok l2 →
      l2.length = l.length ∧
        ∀ (i : Nat) (b : β), l[i]? = some b →
          ∃ cb, l2[i]? = some cb ∧ f b = .ok cb := by
  intro l
  induction l with
  | nil =>
    intro l2 h
    simp only [mapOrErr] at h
    cases h
    refine ⟨rfl, ?_⟩
    intro i b hib
    simp at hib
  | cons b bs ih =>
    intro l2 h
    simp only [mapOrErr] at h
    cases hfb : f b with
    | error e => simp only [hfb] at h; cases h
    | ok c =>
      simp only [hfb] at h
      cases hbs : mapOrErr f bs with
      | error e => simp only [hbs] at h; cases h
      | ok cs =>
        simp only [hbs] at h
        cases h
        obtain ⟨ihlen, ihpt⟩ := ih hbs
        refine ⟨by simp [ihlen], ?_⟩
        intro i b2 hib
        cases i with
        | zero =>
          simp only [List.getElem?_cons_zero, Option.some.injEq] at hib
          subst hib
          exact ⟨c, by simp, hfb⟩
        | succ i =>
          simp only [List.getElem?_cons_succ] at hib ⊢
          exact ihpt i b2 hib

theorem buildRecord_ok {α : Type} {c : Chunk α} {r : Record α}
    (h : buildRecord c = .ok r) :
    c.text = some r.text ∧ c.metadata = some r.metadata ∧
      c.context = some r.context := by
  rcases c with ⟨emb, t, m, x⟩
  cases t with
  | none => simp [buildRecord] at h
  | some tv =>
    cases m with
    | none => simp [buildRecord] at h
    | some mv =>
      cases x with
      | none => simp [buildRecord] at h
      | some xv =>
        simp only [buildRecord] at h
        cases h
        exact ⟨rfl, rfl, rfl⟩

theorem extractOne_ok {α : Type} {c : Chunk α} {v : List ℚ}
    (h : (match c.embedding with
      | some e => (.ok e : Except Err (List ℚ))
      | none => .error .keyError) = .ok v) : c.embedding = some v := by
  cases he : c.embedding with
  | none => rw [he] at h; cases h
  | some e => rw [he] at h; cases h; rfl

end EmbFaiss

namespace EmbFaiss

/-! Claim theorems. -/

/-- C4. An index operation on a batch with zero chunks fails with the
`EmptyBatch` error kind (the `IndexError` raised by `embeddings.shape[1]` on
the empty array, line 24) and with no other error kind, and leaves the file
system — both persisted artifacts — exactly as it was. -/
theorem index_empty_batch_fails_clean {α : Type} (fs : FS α) :
    indexRun [] fs = (fs, .error .emptyBatch) := rfl

/-- C10. Two query operations against the same persisted store whose inputs
agree on the embedding and `k` and differ only in the (present) `context`
value produce identical output: the context field is read (line 43) and then
never used by retrieval. -/
theorem query_context_noninterference {α : Type} (q : Option (List ℚ))
    (k : Option Int) (c1 c2 : α) (fs : FS α) :
    queryRun q k (some c1) fs = queryRun q k (some c2) fs := by
  cases q <;> cases k <;> rfl

/-- C7. Round-trip: serializing and re-reading a store built from `n ≥ 1`
vectors of equal dimension `d` reproduces the dimension, the vector count and
every vector's values, in the original insertion order (exactly — the model
carries rationals, so "within floating-point serialization precision" is
satisfied with zero error). -/
theorem save_load_roundtrip (s : VectorStore) (_hn : 1 ≤ s.vecs.length)
    (hd : ∀ v ∈ s.vecs, v.length = s.dim) : loadIndex (saveIndex s) = s :=
  loadIndex_saveIndex s hd

/-- Witness for C7 at a concrete two-vector store of dimension 2. -/
theorem save_load_roundtrip_witness :
    1 ≤ (VectorStore.mk 2 [[1, 2], [3, 4]]).vecs.length ∧
      (∀ v ∈ (VectorStore.mk 2 [[1, 2], [3, 4]]).vecs, v.length = (VectorStore.mk 2 [[1, 2], [3, 4]]).dim) ∧
      loadIndex (saveIndex (VectorStore.mk 2 [[1, 2], [3, 4]])) = VectorStore.mk 2 [[1, 2], [3, 4]] :=
  ⟨by decide, by decide,
    save_load_roundtrip (VectorStore.mk 2 [[1, 2], [3, 4]]) (by decide) (by decide)⟩

/-- C3. End-to-end: after indexing the three chunks with embeddings `[1,0]`,
`[0,1]`, `[5,5]` and texts `"a"`, `"b"`, `"c"` into an empty directory, the
query with embedding `[0.9, 0.1]` and `k = 2` succeeds and prints exactly the
ordered records of `"a"` then `"b"` — records only, no distances (the script
prints `results`, built solely from `meta` entries, line 50–51). -/
theorem end_to_end_three_chunks :
    (indexRun chunks3 fs0).2 = .ok 3 ∧
      queryRun (some qvec3) (some 2) (some "q") fs3 =
        .ok [⟨"a", "ma", "xa"⟩, ⟨"b", "mb", "xb"⟩] := by
  constructor
  · decide
  · with_unfolding_all decide

/-- C5 counterexample: with one stored record, the positional lookup
`meta[-1]` does not fail — Python's negative indexing wraps around and yields
the last record. -/
theorem pyGet_neg_index_cex :
    pyGet ([⟨"a", "m", "x"⟩] : List (Record String)) (-1) =
      .ok ⟨"a", "m", "x"⟩ := by decide

/-- C5 amended. The positional lookup `meta[p]` of the query operation fails
with `OutOfRange` exactly when `p ≥ length` or `p < -length`; a negative
position `-length ≤ p < 0` does yield a record, namely the one at position
`length + p` (Python negative-index wraparound). -/
theorem pyGet_oob_spec {α : Type} (meta : List (Record α)) (p : Int) :
    (((meta.length : Int) ≤ p ∨ p < -(meta.length : Int)) →
        pyGet meta p = .error .outOfRange) ∧
      (-(meta.length : Int) ≤ p → p < 0 →
        ∃ r, meta[((meta.length : Int) + p).toNat]? = some r ∧
          pyGet meta p = .ok r) := by
  constructor
  · intro hoob
    by_cases hp : p < 0
    · have hplt : p < -(meta.length : Int) := by
        rcases hoob with h | h
        · omega
        · exact h
      simp only [pyGet, if_pos hp]
      rw [if_pos (by omega)]
    · have hLe : (meta.length : Int) ≤ p := by
        rcases hoob with h | h
        · exact h
        · omega
      simp only [pyGet, if_neg hp]
      have hnone : meta[p.toNat]? = none := List.getElem?_eq_none (by omega)
      rw [hnone]
  · intro hge hlt
    have hlt2 : ((meta.length : Int) + p).toNat < meta.length := by omega
    refine ⟨meta[((meta.length : Int) + p).toNat], List.getElem?_eq_getElem hlt2, ?_⟩
    simp only [pyGet, if_pos hlt]
    rw [if_neg (by omega)]
    rw [List.getElem?_eq_getElem hlt2]

/-- Witness for C5 (amended): with one stored record, position `2` is
rejected with `OutOfRange`, and position `-1` wraps to the sole record. -/
theorem pyGet_oob_spec_witness :
    (((List.length ([⟨"b", "mm", "xx"⟩] : List (Record String)) : Int) ≤ 2 ∨
        (2 : Int) < -(List.length ([⟨"b", "mm", "xx"⟩] : List (Record String)) : Int)) ∧
      pyGet ([⟨"b", "mm", "xx"⟩] : List (Record String)) 2 = .error .outOfRange) ∧
      (-(List.length ([⟨"b", "mm", "xx"⟩] : List (Record String)) : Int) ≤ -1 ∧ (-1 : Int) < 0 ∧
        ∃ r, ([⟨"b", "mm", "xx"⟩] : List (Record String))[((List.length ([⟨"b", "mm", "xx"⟩] : List (Record String)) : Int) + -1).toNat]? = some r ∧
          pyGet ([⟨"b", "mm", "xx"⟩] : List (Record String)) (-1) = .ok r) :=
  ⟨⟨by decide,
    (pyGet_oob_spec ([⟨"b", "mm", "xx"⟩] : List (Record String)) 2).1 (by decide)⟩,
    ⟨by decide, by decide,
      (pyGet_oob_spec ([⟨"b", "mm", "xx"⟩] : List (Record String)) (-1)).2 (by decide) (by decide)⟩⟩

/-- C2. For a query of the store's dimension with `1 ≤ k ≤ n` against `n`
stored vectors, the search step returns exactly `k` `(position, distance)`
results, ascending by squared Euclidean distance, and each result is the
genuine distance of a distinct stored position in `{0..n-1}` (no duplicates,
no padding). -/
theorem search_k_le_n_sorted_nodup (store : VectorStore) (q : List ℚ) (k : Nat)
    (_hd : q.length = store.dim) (_hv : ∀ v ∈ store.vecs, v.length = store.dim)
    (_hk1 : 1 ≤ k) (hkn : k ≤ store.vecs.length) :
    (searchModel store q k).length = k ∧
      List.Sorted (fun a b : Int × ℚ => a.2 ≤ b.2) (searchModel store q k) ∧
      ((searchModel store q k).map Prod.fst).Nodup ∧
      ∀ p ∈ searchModel store q k, ∃ i : Nat, i < store.vecs.length ∧
        p = (Int.ofNat i, sqDist q (store.vecs.getD i [])) := by
  have hrep : k - store.vecs.length = 0 := Nat.sub_eq_zero_of_le hkn
  have hsm : searchModel store q k =
      (List.insertionSort rankLe (candPairs store q)).take k := by
    simp [searchModel, hrep]
  have hperm : List.Perm (List.insertionSort rankLe (candPairs store q))
      (candPairs store q) := List.perm_insertionSort rankLe _
  have hlen : (List.insertionSort rankLe (candPairs store q)).length =
      store.vecs.length := by
    rw [hperm.length_eq, candPairs_length]
  refine ⟨?_, ?_, ?_, ?_⟩
  · rw [hsm, List.length_take, hlen]
    omega
  · rw [hsm]
    have hsort : List.Sorted rankLe (List.insertionSort rankLe (candPairs store q)) :=
      List.sorted_insertionSort rankLe _
    have hsnd : List.Sorted (fun a b : Int × ℚ => a.2 ≤ b.2)
        (List.insertionSort rankLe (candPairs store q)) :=
      hsort.imp (fun h => rankLe_snd_le h)
    exact hsnd.sublist (List.take_sublist k _)
  · have hinj : Function.Injective Int.ofNat := fun a b h => Int.ofNat.inj h
    have h2 : ((candPairs store q).map Prod.fst).Nodup := by
      rw [candPairs_map_fst]
      exact (List.nodup_range _).map hinj
    have h3 : ((List.insertionSort rankLe (candPairs store q)).map Prod.fst).Nodup :=
      ((hperm.map Prod.fst).nodup_iff).mpr h2
    rw [hsm]
    exact h3.sublist ((List.take_sublist k _).map Prod.fst)
  · intro p hp
    rw [hsm] at hp
    have hp1 : p ∈ List.insertionSort rankLe (candPairs store q) :=
      (List.take_sublist k _).subset hp
    exact mem_candPairs (hperm.mem_iff.mp hp1)

/-- Witness for C2 at a two-vector store of dimension 1 with `k = 2`. -/
theorem search_k_le_n_sorted_nodup_witness :
    (([1] : List ℚ).length = (VectorStore.mk 1 [[0], [3]]).dim ∧
        (∀ v ∈ (VectorStore.mk 1 [[0], [3]]).vecs, v.length = (VectorStore.mk 1 [[0], [3]]).dim) ∧
        1 ≤ 2 ∧ 2 ≤ (VectorStore.mk 1 [[0], [3]]).vecs.length) ∧
      ((searchModel (VectorStore.mk 1 [[0], [3]]) [1] 2).length = 2 ∧
        List.Sorted (fun a b : Int × ℚ => a.2 ≤ b.2)
          (searchModel (VectorStore.mk 1 [[0], [3]]) [1] 2) ∧
        ((searchModel (VectorStore.mk 1 [[0], [3]]) [1] 2).map Prod.fst).Nodup ∧
        ∀ p ∈ searchModel (VectorStore.mk 1 [[0], [3]]) [1] 2,
          ∃ i : Nat, i < (VectorStore.mk 1 [[0], [3]]).vecs.length ∧
            p = (Int.ofNat i, sqDist [1] ((VectorStore.mk 1 [[0], [3]]).vecs.getD i []))) :=
  ⟨⟨by decide, by decide, by decide, by decide⟩,
    search_k_le_n_sorted_nodup (VectorStore.mk 1 [[0], [3]]) [1] 2
      (by decide) (by decide) (by decide) (by decide)⟩

/-- C1 counterexample: against a store holding `n = 1` vector, a query with
`k = 2` does not return `1` result — it returns `2` records, the second a
repeated stand-in: faiss pads the unfillable result slot with label `-1`,
and `meta[-1]` is Python for the last record. -/
theorem query_k_gt_n_cex :
    queryRun (some [0]) (some 2) (some "q") fsOne =
        .ok [⟨"a", "m", "x"⟩, ⟨"a", "m", "x"⟩] ∧
      queryRun (some [0]) (some 2) (some "q") fsOne ≠
        .ok [(⟨"a", "m", "x"⟩ : Record String)] := by
  constructor
  · decide
  · decide

/-- C1 amended. For a well-formed query with `k > n ≥ 1` against a persisted
store of `n` vectors aligned with `n` metadata records, the query operation
does not fail, but returns exactly `k` records, not `n`: the entries beyond
position `n` are the padding labels `-1` projected through Python negative
indexing, i.e. `k - n` repeated copies of the last stored record. -/
theorem query_k_gt_n_returns_k_padded {α : Type} (fs : FS α)
    (si : SerializedIndex) (meta : List (Record α)) (q : List ℚ) (k : Nat)
    (c : α) (hidx : fs.indexFile = some si) (hmeta : fs.metaFile = some meta)
    (hq : q.length = si.dim) (hal : meta.length = si.ntotal)
    (h1 : 1 ≤ si.ntotal) (hk : si.ntotal < k) :
    ∃ l r, queryRun (some q) (some (k : Int)) (some c) fs = .ok l ∧
      l.length = k ∧ meta.getLast? = some r ∧
      l.drop si.ntotal = List.replicate (k - si.ntotal) r := by
  have hne : meta ≠ [] := by
    intro h
    rw [h] at hal
    simp only [List.length_nil] at hal
    omega
  have hstlen : (loadIndex si).vecs.length = si.ntotal := takeRows_length _ _ _
  have hsorted_len :
      (List.insertionSort rankLe (candPairs (loadIndex si) q)).length = si.ntotal := by
    rw [List.length_insertionSort, candPairs_length, hstlen]
  have htake : (List.insertionSort rankLe (candPairs (loadIndex si) q)).take k =
      List.insertionSort rankLe (candPairs (loadIndex si) q) :=
    List.take_of_length_le (by omega)
  have hgen : mapOrErr (fun pr => pyGet meta pr.1)
      (List.insertionSort rankLe (candPairs (loadIndex si) q)) =
      .ok ((List.insertionSort rankLe (candPairs (loadIndex si) q)).map
        (fun pr => meta.getD pr.1.toNat (meta.getLast hne))) := by
    apply mapOrErr_ok_of_forall
    intro p hp
    obtain ⟨i, hi, he⟩ :=
      mem_candPairs ((List.perm_insertionSort rankLe _).mem_iff.mp hp)
    subst he
    have hi2 : i < meta.length := by
      rw [hstlen] at hi
      omega
    exact pyGet_ofNat meta i hi2 _
  have hpad : mapOrErr (fun pr => pyGet meta pr.1)
      (List.replicate (k - si.ntotal) ((-1 : Int), fltMax)) =
      .ok (List.replicate (k - si.ntotal) (meta.getLast hne)) :=
    mapOrErr_replicate _ _ _ _ (pyGet_neg_one meta hne)
  have hsearch : searchModel (loadIndex si) q k =
      List.insertionSort rankLe (candPairs (loadIndex si) q) ++
        List.replicate (k - si.ntotal) ((-1 : Int), fltMax) := by
    rw [searchModel, htake, hstlen]
  have hmap : mapOrErr (fun pr => pyGet meta pr.1) (searchModel (loadIndex si) q k) =
      .ok ((List.insertionSort rankLe (candPairs (loadIndex si) q)).map
          (fun pr => meta.getD pr.1.toNat (meta.getLast hne)) ++
        List.replicate (k - si.ntotal) (meta.getLast hne)) := by
    rw [hsearch]
    exact mapOrErr_append_ok _ hgen hpad
  have hglen : ((List.insertionSort rankLe (candPairs (loadIndex si) q)).map
      (fun pr => meta.getD pr.1.toNat (meta.getLast hne))).length = si.ntotal := by
    rw [List.length_map, hsorted_len]
  refine ⟨(List.insertionSort rankLe (candPairs (loadIndex si) q)).map
      (fun pr => meta.getD pr.1.toNat (meta.getLast hne)) ++
        List.replicate (k - si.ntotal) (meta.getLast hne),
    meta.getLast hne, ?_, ?_, List.getLast?_eq_getLast meta hne, ?_⟩
  · have hq2 : q.length = (loadIndex si).dim := hq
    have hk2 : (1 : Int) ≤ (k : Int) := by omega
    have htn : ((k : Int)).toNat = k := rfl
    simp only [queryRun, hidx, hmeta]
    rw [if_pos hq2, if_pos hk2, htn, hmap]
  · rw [List.length_append, hglen, List.length_replicate]
    omega
  · rw [← hglen, List.drop_left]

/-- Witness for C1 (amended) at the one-vector store with `k = 2`. -/
theorem query_k_gt_n_returns_k_padded_witness :
    (fsOne.indexFile = some ⟨1, 1, [0]⟩ ∧
        fsOne.metaFile = some [⟨"a", "m", "x"⟩] ∧
        ([(0 : ℚ)] : List ℚ).length = (1 : Nat) ∧
        ([(⟨"a", "m", "x"⟩ : Record String)]).length = 1 ∧ 1 ≤ 1 ∧ 1 < 2) ∧
      ∃ l r, queryRun (some [0]) (some ((2 : Nat) : Int)) (some "q") fsOne = .ok l ∧
        l.length = 2 ∧
        ([(⟨"a", "m", "x"⟩ : Record String)]).getLast? = some r ∧
        l.drop 1 = List.replicate (2 - 1) r :=
  ⟨⟨by decide, by decide, by decide, by decide, by decide, by decide⟩,
    query_k_gt_n_returns_k_padded fsOne ⟨1, 1, [0]⟩ [⟨"a", "m", "x"⟩] [0] 2 "q"
      (by decide) (by decide) (by decide) (by decide) (by decide) (by decide)⟩

/-- C6. Building the index from embeddings of differing lengths fails with
the `DimensionMismatch` error kind and no other (the `ValueError` from
`np.array` over ragged rows, line 22, before anything is written), and
querying a persisted store with an embedding whose length differs from the
stored dimension fails with the `DimensionMismatch` error kind and no other
(the faiss wrapper's `assert d == self.d`, line 46). -/
theorem dimension_mismatch_fails {α : Type} :
    (∀ (chunks : List (Chunk α)) (fs : FS α) (embs : List (List ℚ)),
      extractEmbeddings chunks = .ok embs →
      (∃ v ∈ embs, ∃ w ∈ embs, v.length ≠ w.length) →
      indexRun chunks fs = (fs, .error .dimensionMismatch)) ∧
    (∀ (q : List ℚ) (k : Int) (c : α) (fs : FS α) (si : SerializedIndex),
      fs.indexFile = some si → q.length ≠ si.dim →
      queryRun (some q) (some k) (some c) fs = .error .dimensionMismatch) := by
  constructor
  · intro chunks fs embs hex hdiff
    have hfalse := allSameLen_false_of_diff hdiff
    simp only [indexRun, hex, hfalse]
    simp
  · intro q k c fs si hidx hql
    have hql2 : ¬ (q.length = (loadIndex si).dim) := hql
    simp only [queryRun, hidx]
    rw [if_neg hql2]

/-- Witness for C6: indexing embeddings `[1,2]` and `[3]` fails with
`DimensionMismatch`; querying a dimension-2 store with `[1]` fails with
`DimensionMismatch`. -/
theorem dimension_mismatch_fails_witness :
    (extractEmbeddings
        ([⟨some [1, 2], some "a", some "m", some "x"⟩,
          ⟨some [3], some "b", some "m", some "x"⟩] : List (Chunk String)) =
        .ok [[1, 2], [3]] ∧
      (∃ v ∈ [[(1 : ℚ), 2], [3]], ∃ w ∈ [[(1 : ℚ), 2], [3]], v.length ≠ w.length) ∧
      indexRun
        ([⟨some [1, 2], some "a", some "m", some "x"⟩,
          ⟨some [3], some "b", some "m", some "x"⟩] : List (Chunk String)) fs0 =
        (fs0, .error .dimensionMismatch)) ∧
      (fs3.indexFile = some ⟨2, 3, [1, 0, 0, 1, 5, 5]⟩ ∧
        ([(1 : ℚ)] : List ℚ).length ≠ (2 : Nat) ∧
        queryRun (some [1]) (some 5) (some "q") fs3 = .error .dimensionMismatch) :=
  ⟨⟨by decide, by decide,
    dimension_mismatch_fails.1
      [⟨some [1, 2], some "a", some "m", some "x"⟩,
        ⟨some [3], some "b", some "m", some "x"⟩] fs0 [[1, 2], [3]]
      (by decide) (by decide)⟩,
    ⟨by decide, by decide,
      dimension_mismatch_fails.2 [1] 5 "q" fs3 ⟨2, 3, [1, 0, 0, 1, 5, 5]⟩
        (by decide) (by decide)⟩⟩

/-- C8 counterexample: an index operation over a directory that already holds
a persisted store, given a chunk with an embedding but no `"text"` key, fails
(`KeyError` at line 31) after `faiss.write_index` (line 28) has already
replaced the index file: the resulting directory holds the new index next to
the old metadata — neither fully replaced nor left unchanged, and with no
fresh-file indirection to protect it. -/
theorem index_partial_write_cex :
    indexRun [(⟨some [1], none, some "m", some "x"⟩ : Chunk String)] fsOld =
        (⟨some ⟨1, 1, [1]⟩, some [⟨"old", "om", "oc"⟩]⟩, .error .keyError) ∧
      (⟨some ⟨1, 1, [1]⟩, some [⟨"old", "om", "oc"⟩]⟩ : FS String) ≠ fsOld ∧
      (⟨some ⟨1, 1, [1]⟩, some [⟨"old", "om", "oc"⟩]⟩ : FS String).metaFile =
        fsOld.metaFile := by
  refine ⟨by decide, by decide, by decide⟩

/-- C8 amended. The persist steps write each artifact directly to its final
file, in program order, with no write-to-fresh-file-and-rename indirection:
when an index operation fails after the index write but before the metadata
write (any `buildMeta` failure), the directory is left in a mixed state — the
index file replaced with the new store, the metadata file still the old
one. Only the error itself is reported; the partial write persists. -/
theorem index_midfail_partial_state {α : Type} (chunks : List (Chunk α))
    (fs : FS α) (e : List ℚ) (rest : List (List ℚ)) (err : Err)
    (hex : extractEmbeddings chunks = .ok (e :: rest))
    (hsame : allSameLen (e :: rest) = true)
    (hbm : buildMeta chunks = .error err) :
    indexRun chunks fs =
      ({ fs with indexFile := some (saveIndex ⟨e.length, e :: rest⟩) },
        .error err) := by
  simp only [indexRun, hex, hsame, hbm, if_true]

/-- Witness for C8 (amended) at the concrete mid-failing payload over a
pre-existing store. -/
theorem index_midfail_partial_state_witness :
    (extractEmbeddings [(⟨some [1], none, some "m", some "x"⟩ : Chunk String)] =
        .ok [[1]] ∧
      allSameLen [[(1 : ℚ)]] = true ∧
      buildMeta [(⟨some [1], none, some "m", some "x"⟩ : Chunk String)] =
        .error .keyError) ∧
      indexRun [(⟨some [1], none, some "m", some "x"⟩ : Chunk String)] fsOld =
        ({ fsOld with indexFile := some (saveIndex ⟨List.length [(1 : ℚ)], [[1]]⟩) },
          .error .keyError) :=
  ⟨⟨by decide, by decide, by decide⟩,
    index_midfail_partial_state [⟨some [1], none, some "m", some "x"⟩] fsOld
      [1] [] .keyError (by decide) (by decide) (by decide)⟩

/-- C9. After every successful index operation on a batch of `n` chunks, the
persisted metadata list has exactly `n` records in input order, record `i`
carrying the text, metadata and context of chunk `i`, and the persisted
index stores chunk `i`'s embedding as vector `i` — the 1:1 positional
alignment invariant. -/
theorem index_alignment {α : Type} (chunks : List (Chunk α)) (fs fs2 : FS α)
    (n : Nat) (h : indexRun chunks fs = (fs2, .ok n)) :
    n = chunks.length ∧
    ∃ si meta, fs2.indexFile = some si ∧ fs2.metaFile = some meta ∧
      meta.length = chunks.length ∧
      (loadIndex si).vecs.length = chunks.length ∧
      ∀ i, i < chunks.length →
        ∃ c r v, chunks[i]? = some c ∧ meta[i]? = some r ∧
          (loadIndex si).vecs[i]? = some v ∧
          c.text = some r.text ∧ c.metadata = some r.metadata ∧
          c.context = some r.context ∧ c.embedding = some v := by
  cases hex : extractEmbeddings chunks with
  | error e =>
    simp only [indexRun, hex] at h
    exact absurd (congrArg Prod.snd h) (by simp)
  | ok embs =>
    cases hsame : allSameLen embs with
    | false =>
      simp only [indexRun, hex, hsame] at h
      exact absurd (congrArg Prod.snd h) (by simp)
    | true =>
      cases embs with
      | nil =>
        simp only [indexRun, hex, hsame, if_true] at h
        exact absurd (congrArg Prod.snd h) (by simp)
      | cons e rest =>
        cases hbm : buildMeta chunks with
        | error err =>
          simp only [indexRun, hex, hsame, hbm, if_true] at h
          exact absurd (congrArg Prod.snd h) (by simp)
        | ok meta =>
          simp only [indexRun, hex, hsame, hbm, if_true] at h
          have hfs2 : ({ fs with
              indexFile := some (saveIndex ⟨e.length, e :: rest⟩),
              metaFile := some meta } : FS α) = fs2 := congrArg Prod.fst h
          have hn : chunks.length = n := by
            have h2 := congrArg Prod.snd h
            simpa using h2
          have hload : loadIndex (saveIndex ⟨e.length, e :: rest⟩) =
              VectorStore.mk e.length (e :: rest) :=
            loadIndex_saveIndex _ (allSameLen_forall hsame)
          obtain ⟨hextlen, hextpt⟩ := mapOrErr_ok_pointwise _ hex
          obtain ⟨hbmlen, hbmpt⟩ := mapOrErr_ok_pointwise buildRecord hbm
          refine ⟨hn.symm, saveIndex ⟨e.length, e :: rest⟩, meta,
            by rw [← hfs2], by rw [← hfs2], by rw [hbmlen], ?_, ?_⟩
          · rw [hload]
            exact hextlen
          · intro i hi
            have hci : chunks[i]? = some chunks[i] := List.getElem?_eq_getElem hi
            obtain ⟨r, hri, hfr⟩ := hbmpt i chunks[i] hci
            obtain ⟨v, hvi, hfv⟩ := hextpt i chunks[i] hci
            obtain ⟨ht, hm, hx⟩ := buildRecord_ok hfr
            refine ⟨chunks[i], r, v, hci, hri, ?_, ht, hm, hx, extractOne_ok hfv⟩
            rw [hload]
            exact hvi

/-- Witness for C9 at the three-chunk end-to-end payload. -/
theorem index_alignment_witness :
    indexRun chunks3 fs0 =
        (⟨some ⟨2, 3, [1, 0, 0, 1, 5, 5]⟩,
          some [⟨"a", "ma", "xa"⟩, ⟨"b", "mb", "xb"⟩, ⟨"c", "mc", "xc"⟩]⟩,
          .ok 3) ∧
      (3 = chunks3.length ∧
        ∃ si meta,
          (⟨some ⟨2, 3, [1, 0, 0, 1, 5, 5]⟩,
            some [⟨"a", "ma", "xa"⟩, ⟨"b", "mb", "xb"⟩, ⟨"c", "mc", "xc"⟩]⟩ :
              FS String).indexFile = some si ∧
          (⟨some ⟨2, 3, [1, 0, 0, 1, 5, 5]⟩,
            some [⟨"a", "ma", "xa"⟩, ⟨"b", "mb", "xb"⟩, ⟨"c", "mc", "xc"⟩]⟩ :
              FS String).metaFile = some meta ∧
          meta.length = chunks3.length ∧
          (loadIndex si).vecs.length = chunks3.length ∧
          ∀ i, i < chunks3.length →
            ∃ c r v, chunks3[i]? = some c ∧ meta[i]? = some r ∧
              (loadIndex si).vecs[i]? = some v ∧
              c.text = some r.text ∧ c.metadata = some r.metadata ∧
              c.context = some r.context ∧ c.embedding = some v) :=
  ⟨by decide,
    index_alignment chunks3 fs0
      ⟨some ⟨2, 3, [1, 0, 0, 1, 5, 5]⟩,
        some [⟨"a", "ma", "xa"⟩, ⟨"b", "mb", "xb"⟩, ⟨"c", "mc", "xc"⟩]⟩ 3
      (by decide)⟩

end EmbFaiss
